import Mathlib

/-!
Shallow embedding of `mpd-stream-proxy` (src/main.rs): the path parser
(`extract_input`), the metadata accessors (`key_from_info`,
`stream_url_from_info`, `cover_url_from_info`), the extractor-output
collection loop (`ask_stream_infos`), the cache-population step of
`handle_request`, and the request-rewrite/forward step.

JSON documents produced by the extractor are modelled by `JValue`; numbers
carry the value that serde_json's `as_i64` would report (`none` for numbers
with no i64 representation). The subprocess and the HTTP client are external
collaborators: they enter the embedding as explicit inputs (exit status and
stdout lines for the subprocess; a function from request to response for the
client).
-/

/-- Each distinct failure site of the source, one constructor per `anyhow!`
message (plus the two external failure sites: spawning the subprocess and
parsing the proxied URL). -/
inductive Err where
  /-- Message: "No '/' or '/cover.*' after the URL." -/
  | noSlashOrCover
  /-- Message: "Empty URL. Usage: ..." -/
  | emptyUrl
  /-- Message: "cover asked has no extension" -/
  | coverNoExtension
  /-- Message: no "original_url" present in info. -/
  | noOriginalUrl
  /-- Message: "original_url" is not a string. -/
  | originalUrlNotString
  /-- Message: no "url" present in info. -/
  | noUrl
  /-- Message: "url" is not a string. -/
  | urlNotString
  /-- Message: no "thumbnails" present in info. -/
  | noThumbnails
  /-- Message: "thumbnails" is not a array. -/
  | thumbnailsNotArray
  /-- Message: no valid thumbnail found for the extension. -/
  | noValidThumbnail (ext : String)
  /-- Message: "received no info from yt-dlp." -/
  | receivedNoInfo
  /-- Message: "child process failed to gather info." -/
  | childProcessFailed
  /-- Failure of `Command::spawn` or `wait_with_output`. -/
  | spawnFailed
  /-- Failure of `Uri::from_str` on the proxied URL. -/
  | invalidTargetUrl
deriving DecidableEq, Repr

/-- Spec taxonomy: `MalformedRequest` failures of the input parser. -/
def Err.isMalformedRequest : Err → Bool
  | .noSlashOrCover | .emptyUrl | .coverNoExtension => true
  | _ => false

/-- Spec taxonomy: `ExtractionFailed` (subprocess failed, could not be
spawned, or produced no parseable records). -/
def Err.isExtractionFailed : Err → Bool
  | .receivedNoInfo | .childProcessFailed | .spawnFailed => true
  | _ => false

/-- Spec taxonomy: `FieldMissing("thumbnails")` (field absent or wrong type). -/
def Err.isFieldMissingThumbnails : Err → Bool
  | .noThumbnails | .thumbnailsNotArray => true
  | _ => false

/-- serde_json `Value`. A number is represented by what `as_i64` reports on
it: `num (some i)` for an i64-representable number, `num none` otherwise. -/
inductive JValue where
  | null
  | bool (b : Bool)
  | num (asI64 : Option Int)
  | str (s : String)
  | arr (elems : List JValue)
  | obj (fields : List (String × JValue))

/-- Rust `Value::get(key)` with a string index: object member lookup (first
matching key; serde_json maps have unique keys), `None` on non-objects. -/
def JValue.get : JValue → String → Option JValue
  | .obj fields, key => fields.lookup key
  | _, _ => none

/-- Rust `Value::as_str`. -/
def JValue.as_str : JValue → Option String
  | .str s => some s
  | _ => none

/-- Rust `Value::as_i64`. -/
def JValue.as_i64 : JValue → Option Int
  | .num i => i
  | _ => none

/-- Rust `Value::as_array`. -/
def JValue.as_array : JValue → Option (List JValue)
  | .arr elems => some elems
  | _ => none

/-- Rust `key_from_info`: the record's `original_url` as a string. -/
def key_from_info (info : JValue) : Except Err String :=
  match info.get "original_url" with
  | none => .error .noOriginalUrl
  | some v =>
    match v.as_str with
    | none => .error .originalUrlNotString
    | some s => .ok s

/-- Rust `stream_url_from_info`: the record's `url` as a string. -/
def stream_url_from_info (info : JValue) : Except Err String :=
  match info.get "url" with
  | none => .error .noUrl
  | some v =>
    match v.as_str with
    | none => .error .urlNotString
    | some s => .ok s

/-- Rust `str::rsplit_once(c)`: split at the last occurrence of `c`; `none` when
`c` does not occur. -/
def rsplitOnceList (cs : List Char) (c : Char) : Option (List Char × List Char) :=
  match cs with
  | [] => none
  | x :: xs =>
    match rsplitOnceList xs c with
    | some (a, b) => some (x :: a, b)
    | none => if x = c then some ([], xs) else none

/-- Rust `str::split_once(c)`: split at the first occurrence of `c`. -/
def splitOnceList (cs : List Char) (c : Char) : Option (List Char × List Char) :=
  match cs with
  | [] => none
  | x :: xs =>
    if x = c then some ([], xs)
    else (splitOnceList xs c).map (fun p => (x :: p.1, p.2))

/-- Rust `str::starts_with(pat)` on character lists. -/
def startsWithList : List Char → List Char → Bool
  | _, [] => true
  | [], _ :: _ => false
  | x :: xs, y :: ys => x = y && startsWithList xs ys

/-- Rust `str::ends_with(pat)` on character lists: suffix match. -/
def endsWithList (cs pat : List Char) : Bool :=
  startsWithList cs.reverse pat.reverse

/-- The characters of the literal `"cover."`. -/
def coverDot : List Char := ['c', 'o', 'v', 'e', 'r', '.']

/-- Rust `extract_input(path_and_query)`: returns `(input, cover_ext,
is_asking_cover)`. Mirrors the source line by line; the `split_once('.')`
unwrap in the source cannot fail because the suffix starts with `"cover."`,
so its `None` case is given the junk default `([], [])` here. -/
def extract_input (path_and_query : String) : Except Err (String × String × Bool) :=
  let p := (rsplitOnceList path_and_query.data '/').getD ([], [])
  let front := p.1
  let last := p.2
  let is_asking_cover := startsWithList last coverDot
  if !last.isEmpty && !is_asking_cover then
    .error .noSlashOrCover
  else
    let input := front.dropWhile (fun c => c == '/')
    if input.isEmpty then
      .error .emptyUrl
    else if is_asking_cover then
      let cover_ext := ((splitOnceList last '.').getD ([], [])).2
      if cover_ext.isEmpty then
        .error .coverNoExtension
      else
        .ok (String.mk input, String.mk cover_ext, true)
    else
      .ok (String.mk input, String.mk [], false)

example : extract_input "/" = .error .emptyUrl := rfl
example : extract_input "" = .error .emptyUrl := rfl
example : extract_input "/ref/cover." = .error .coverNoExtension := rfl
example : extract_input "/ref/" = .ok ("ref", "", false) := rfl
example : extract_input "/ref/cover.jpg" = .ok ("ref", "jpg", true) := rfl
example : extract_input "abc" = .error .emptyUrl := rfl
example : extract_input "/abc" = .error .noSlashOrCover := rfl

/-- One parsed `Thumb { url, preference }` candidate: `(url, preference)`. -/
abbrev Thumb := String × Int

/-- The `filter_map` closure of `cover_url_from_info`: a `thumbnails` entry
yields a candidate only when `t.get("url")?.as_str()?` and
`t.get("preference")?.as_i64()?` all succeed. -/
def thumbOfJson (t : JValue) : Option Thumb :=
  match (t.get "url").bind JValue.as_str with
  | none => none
  | some url =>
    match (t.get "preference").bind JValue.as_i64 with
    | none => none
    | some preference => some (url, preference)

/-- The `reduce` closure: `Less | Equal => next, Greater => prev`. -/
def thumbStep (prev next : Thumb) : Thumb :=
  if prev.2 ≤ next.2 then next else prev

/-- Rust `Iterator::reduce` over a list: first element seeds the fold. -/
def reduceThumbs : List Thumb → Option Thumb
  | [] => none
  | t :: ts => some (ts.foldl thumbStep t)

/-- The candidates the source filters to: parseable entries whose `url` ends
with the requested extension. -/
def coverCandidates (elems : List JValue) (cover_ext : String) : List Thumb :=
  (elems.filterMap thumbOfJson).filter (fun t => endsWithList t.1.data cover_ext.data)

/-- Rust `cover_url_from_info(info, cover_ext)`. -/
def cover_url_from_info (info : JValue) (cover_ext : String) : Except Err String :=
  match info.get "thumbnails" with
  | none => .error .noThumbnails
  | some v =>
    match v.as_array with
    | none => .error .thumbnailsNotArray
    | some elems =>
      match reduceThumbs (coverCandidates elems cover_ext) with
      | some t => .ok t.1
      | none => .error (.noValidThumbnail cover_ext)

/-- A thumbnail entry `{url: u, preference: p}` as a `JValue`. -/
def mkThumb (u : String) (p : Int) : JValue :=
  .obj [("url", .str u), ("preference", .num (some p))]

example :
    cover_url_from_info
      (.obj [("thumbnails", .arr [mkThumb "a.jpg" 1, mkThumb "b.jpg" 5, mkThumb "c.png" 9])])
      "jpg" = .ok "b.jpg" := rfl
example :
    cover_url_from_info
      (.obj [("thumbnails", .arr [mkThumb "a.jpg" 1, mkThumb "b.jpg" 5, mkThumb "c.png" 9])])
      "webp" = .error (.noValidThumbnail "webp") := rfl
example :
    cover_url_from_info
      (.obj [("thumbnails", .arr [mkThumb "a.jpg" 3, mkThumb "b.jpg" 3])])
      "jpg" = .ok "b.jpg" := rfl

/-- The stdout-collection loop of `ask_stream_infos`: push each line that
parses, skip (with a warning log) each line that does not. `parse` stands for
`serde_json::from_str::<Value>` restricted to one line, an external library
call. -/
def collectInfos (parse : String → Option JValue) : List String → List JValue → List JValue
  | [], acc => acc
  | line :: rest, acc =>
    match parse line with
    | some info => collectInfos parse rest (acc ++ [info])
    | none => collectInfos parse rest acc

/-- Rust `ask_stream_infos` after the subprocess has run, in terms of its
observable result: `success` is `output.status.success()` and `stdoutLines`
the UTF-8 lines of its stdout. (A spawn/wait failure or non-UTF-8 output
errors out before this point and is modelled by `Err.spawnFailed` at the
call site.) -/
def ask_stream_infos (parse : String → Option JValue) (success : Bool)
    (stdoutLines : List String) : Except Err (List JValue) :=
  if success then
    let infos := collectInfos parse stdoutLines []
    if infos.isEmpty then .error .receivedNoInfo else .ok infos
  else
    .error .childProcessFailed

/-- The moka cache, as an association list; a fresh insert shadows older
entries with the same key (moka's insert overwrites). -/
abbrev Cache := List (String × JValue)

/-- Rust `cache.get(key)`: the most recently inserted live entry. -/
def lookupC : Cache → String → Option JValue
  | [], _ => none
  | (k, v) :: rest, key => if key = k then some v else lookupC rest key

/-- Rust `cache.insert(key, value)`. -/
def insertC (cache : Cache) (key : String) (value : JValue) : Cache :=
  (key, value) :: cache

/-- The population loop of `handle_request`:
`for info in infos { let key = key_from_info(&info)?; cache.insert(key, info) }`.
Returns the cache as mutated so far together with the error that aborted the
loop, if any (the `?` propagates after the earlier inserts already happened). -/
def populate (cache : Cache) : List JValue → Cache × Option Err
  | [] => (cache, none)
  | info :: rest =>
    match key_from_info info with
    | .ok key => populate (insertC cache key info) rest
    | .error e => (cache, some e)

/-- How one resolution attempt ends: a record, a recoverable error (which the
service turns into a 500 response), or a panic (`.expect`), which unwinds the
request task and never reaches the error-response path. -/
inductive Outcome where
  | ok (info : JValue)
  | err (e : Err)
  | panic (msg : String)

/-- Whether the attempt failed with a recoverable error, i.e. is `Outcome.err`. whether the attempt failed with a recoverable error. -/
def Outcome.isErr : Outcome → Bool
  | .err _ => true
  | _ => false

/-- The message of the `.expect` in `handle_request`. -/
def expectMsg : String := "\"input\" to be equal to one \"original_url\""

/-- The cache lookup / population step of `handle_request` (lines 70-82),
with the extractor as an explicit collaborator `extr` (the result of
`ask_stream_infos(input)`). Returns the outcome, the cache afterwards, and
how many times the extractor ran. -/
def resolve (extr : String → Except Err (List JValue)) (cache : Cache)
    (input : String) : Outcome × Cache × Nat :=
  match lookupC cache input with
  | some info => (.ok info, cache, 0)
  | none =>
    match extr input with
    | .error e => (.err e, cache, 1)
    | .ok infos =>
      match populate cache infos with
      | (cache', some e) => (.err e, cache', 1)
      | (cache', none) =>
        match lookupC cache' input with
        | some info => (.ok info, cache', 1)
        | none => (.panic expectMsg, cache', 1)

/-- Cache invariant: every live entry is stored under its own record's
`original_url`. -/
def CacheInv (cache : Cache) : Prop :=
  ∀ k v, lookupC cache k = some v → key_from_info v = .ok k

/-- A record whose `original_url` is `u` (and nothing else), for tests. -/
def mkRecord (u : String) : JValue :=
  .obj [("original_url", .str u)]

example :
    (resolve (fun s => if s = "A" then .ok [mkRecord "B"] else .error .childProcessFailed)
      [] "A").1 = .panic expectMsg := rfl

/-- An inbound or outbound HTTP request. Header names are kept as the `http`
crate stores them: lowercased. The body is an opaque byte list. -/
structure HttpRequest where
  method : String
  uri : String
  headers : List (String × String)
  body : List Nat

/-- An origin response, forwarded opaquely. -/
structure HttpResponse where
  status : Nat
  headers : List (String × String)
  body : List Nat

/-- Rust `HeaderMap::remove(name)`: drops every value stored under `name`. -/
def removeHeader : List (String × String) → String → List (String × String)
  | [], _ => []
  | h :: hs, name => if h.1 = name then removeHeader hs name else h :: removeHeader hs name

/-- The forward step of `handle_request` (lines 93-100):
`*request.uri_mut() = Uri::from_str(proxied_url)?`,
`request.headers_mut().remove("host")`, then `client.request(request)` and
the response is returned unchanged. `parseUri` stands for `Uri::from_str`
(an external library call), `client` for the shared hyper client. -/
def forward (parseUri : String → Option String) (client : HttpRequest → HttpResponse)
    (request : HttpRequest) (proxied_url : String) : Except Err HttpResponse :=
  match parseUri proxied_url with
  | none => .error .invalidTargetUrl
  | some u =>
    .ok (client { request with uri := u, headers := removeHeader request.headers "host" })

/-! ## Helper lemmas -/

theorem string_mk_data (s : String) : String.mk s.data = s := rfl

theorem rsplitOnceList_eq_none {cs : List Char} {c : Char} (h : c ∉ cs) :
    rsplitOnceList cs c = none := by
  induction cs with
  | nil => rfl
  | cons x xs ih =>
    simp only [List.mem_cons, not_or] at h
    simp only [rsplitOnceList, ih h.2, if_neg (Ne.symm h.1)]

theorem rsplitOnceList_append {b : List Char} {c : Char} (hb : c ∉ b) (a : List Char) :
    rsplitOnceList (a ++ c :: b) c = some (a, b) := by
  induction a with
  | nil =>
    simp [rsplitOnceList, rsplitOnceList_eq_none hb]
  | cons x xs ih =>
    simp only [List.cons_append, rsplitOnceList, List.append_eq]
    rw [ih]

theorem startsWithList_append (x y : List Char) : startsWithList (x ++ y) x = true := by
  induction x with
  | nil => cases y <;> rfl
  | cons a as ih => simp [startsWithList, ih]

theorem splitOnceList_coverDot (e : List Char) :
    splitOnceList (coverDot ++ e) '.' = some (['c', 'o', 'v', 'e', 'r'], e) := by
  show splitOnceList ('c' :: 'o' :: 'v' :: 'e' :: 'r' :: '.' :: e) '.' = _
  rw [splitOnceList, if_neg (by decide)]
  rw [splitOnceList, if_neg (by decide)]
  rw [splitOnceList, if_neg (by decide)]
  rw [splitOnceList, if_neg (by decide)]
  rw [splitOnceList, if_neg (by decide)]
  rw [splitOnceList, if_pos rfl]
  rfl

theorem collectInfos_eq (parse : String → Option JValue) (stdoutLines : List String) :
    ∀ acc : List JValue,
      collectInfos parse stdoutLines acc = acc ++ stdoutLines.filterMap parse := by
  induction stdoutLines with
  | nil => intro acc; simp [collectInfos]
  | cons l ls ih =>
    intro acc
    cases h : parse l with
    | some info => simp [collectInfos, h, ih, List.filterMap_cons]
    | none => simp [collectInfos, h, ih, List.filterMap_cons]

theorem removeHeader_eq_filter (hs : List (String × String)) (name : String) :
    removeHeader hs name = hs.filter (fun h => h.1 != name) := by
  induction hs with
  | nil => rfl
  | cons h hs ih =>
    by_cases hn : h.1 = name
    · simp [removeHeader, hn, ih]
    · simp [removeHeader, hn, ih]

theorem foldl_thumbStep_lastMax (ts : List Thumb) :
    ∀ init : Thumb, ∃ l1 l2 : List Thumb,
      init :: ts = l1 ++ (ts.foldl thumbStep init) :: l2 ∧
      (∀ u ∈ l1, u.2 ≤ (ts.foldl thumbStep init).2) ∧
      (∀ u ∈ l2, u.2 < (ts.foldl thumbStep init).2) := by
  induction ts with
  | nil =>
    intro init
    exact ⟨[], [], rfl, by simp, by simp⟩
  | cons x xs ih =>
    intro init
    simp only [List.foldl_cons]
    by_cases hle : init.2 ≤ x.2
    · have hstep : thumbStep init x = x := if_pos hle
      rw [hstep]
      obtain ⟨l1, l2, heq, hmax, hafter⟩ := ih x
      have hx : x.2 ≤ (xs.foldl thumbStep x).2 := by
        cases l1 with
        | nil =>
          have : x = xs.foldl thumbStep x := by
            simpa using congrArg (fun l => l.head?) heq
          rw [← this]
        | cons a l1' =>
          have hxa : x = a := by
            simpa using congrArg (fun l => l.head?) heq
          exact hxa ▸ hmax a (List.mem_cons_self a l1')
      refine ⟨init :: l1, l2, ?_, ?_, hafter⟩
      · rw [List.cons_append, ← heq]
      · intro u hu
        rcases List.mem_cons.mp hu with rfl | hu'
        · exact le_trans hle hx
        · exact hmax u hu'
    · have hstep : thumbStep init x = init := if_neg hle
      rw [hstep]
      push_neg at hle
      obtain ⟨l1, l2, heq, hmax, hafter⟩ := ih init
      cases l1 with
      | nil =>
        have hinit : init = xs.foldl thumbStep init := by
          simpa using congrArg (fun l => l.head?) heq
        have hxs : xs = l2 := by
          simpa using congrArg (fun l => l.tail) heq
        refine ⟨[], x :: l2, ?_, by simp, ?_⟩
        · rw [List.nil_append, ← hinit, hxs]
        · intro u hu
          rcases List.mem_cons.mp hu with rfl | hu'
          · exact lt_of_lt_of_le hle (le_of_eq (congrArg Prod.snd hinit))
          · exact hafter u hu'
      | cons a l1' =>
        have hia : init = a := by
          simpa using congrArg (fun l => l.head?) heq
        have hxs : xs = l1' ++ (xs.foldl thumbStep init) :: l2 := by
          simpa using congrArg (fun l => l.tail) heq
        have hi2 : init.2 ≤ (xs.foldl thumbStep init).2 :=
          hia ▸ hmax a (List.mem_cons_self a l1')
        refine ⟨init :: x :: l1', l2, ?_, ?_, hafter⟩
        · simp only [List.cons_append]
          rw [← hxs]
        · intro u hu
          rcases List.mem_cons.mp hu with rfl | hu'
          · exact hi2
          · rcases List.mem_cons.mp hu' with rfl | hu''
            · exact le_trans (le_of_lt hle) hi2
            · exact hmax u (hia ▸ List.mem_cons_of_mem a hu'')

theorem reduceThumbs_lastMax {l : List Thumb} (h : l ≠ []) :
    ∃ l1 l2 t, reduceThumbs l = some t ∧ l = l1 ++ t :: l2 ∧
      (∀ u ∈ l1, u.2 ≤ t.2) ∧ (∀ u ∈ l2, u.2 < t.2) := by
  cases l with
  | nil => exact absurd rfl h
  | cons x xs =>
    obtain ⟨l1, l2, heq, hmax, hafter⟩ := foldl_thumbStep_lastMax xs x
    exact ⟨l1, l2, xs.foldl thumbStep x, rfl, heq, hmax, hafter⟩

theorem insertC_inv {cache : Cache} {k : String} {v : JValue}
    (h : CacheInv cache) (hk : key_from_info v = .ok k) :
    CacheInv (insertC cache k v) := by
  intro k' v' h'
  simp only [insertC, lookupC] at h'
  by_cases he : k' = k
  · rw [if_pos he] at h'
    cases h'
    rw [he]
    exact hk
  · rw [if_neg he] at h'
    exact h k' v' h'

theorem populate_inv (infos : List JValue) :
    ∀ cache : Cache, CacheInv cache → CacheInv (populate cache infos).1 := by
  induction infos with
  | nil => intro cache h; exact h
  | cons info rest ih =>
    intro cache h
    cases hk : key_from_info info with
    | ok key =>
      simp only [populate, hk]
      exact ih _ (insertC_inv h hk)
    | error e =>
      simp only [populate, hk]
      exact h

theorem lookupC_insertC_isSome {cache : Cache} {key k : String} {v : JValue}
    (h : (lookupC cache k).isSome) : (lookupC (insertC cache key v) k).isSome := by
  simp only [insertC, lookupC]
  split
  · rfl
  · exact h

theorem populate_preserves_isSome (infos : List JValue) :
    ∀ (cache : Cache) (k : String), (lookupC cache k).isSome →
      (lookupC (populate cache infos).1 k).isSome := by
  induction infos with
  | nil => intro cache k h; exact h
  | cons info rest ih =>
    intro cache k h
    cases hk : key_from_info info with
    | ok key =>
      simp only [populate, hk]
      exact ih _ k (lookupC_insertC_isSome h)
    | error e =>
      simp only [populate, hk]
      exact h

theorem populate_good_none (infos : List JValue) :
    ∀ cache : Cache, (∀ i ∈ infos, ∃ k, key_from_info i = .ok k) →
      (populate cache infos).2 = none := by
  induction infos with
  | nil => intro cache _; rfl
  | cons info rest ih =>
    intro cache hgood
    obtain ⟨k, hk⟩ := hgood info (List.mem_cons_self info rest)
    simp only [populate, hk]
    exact ih _ (fun i hi => hgood i (List.mem_cons_of_mem info hi))

theorem populate_lookup_isSome (infos : List JValue) :
    ∀ (cache : Cache) (i : JValue) (k : String),
      (∀ j ∈ infos, ∃ k', key_from_info j = .ok k') →
      i ∈ infos → key_from_info i = .ok k →
      (lookupC (populate cache infos).1 k).isSome := by
  induction infos with
  | nil =>
    intro cache i k _ hmem _
    exact absurd hmem (List.not_mem_nil i)
  | cons info rest ih =>
    intro cache i k hgood hmem hk
    obtain ⟨k0, hk0⟩ := hgood info (List.mem_cons_self info rest)
    simp only [populate, hk0]
    rcases List.mem_cons.mp hmem with rfl | hmem'
    · have hkk : k0 = k := by
        rw [hk] at hk0
        exact (Except.ok.injEq _ _ ▸ hk0).symm
      apply populate_preserves_isSome
      simp only [insertC, lookupC, hkk, if_pos rfl]
      rfl
    · exact ih _ i k (fun j hj => hgood j (List.mem_cons_of_mem info hj)) hmem' hk

theorem populate_lookup_none (infos : List JValue) :
    ∀ (cache : Cache) (k : String), lookupC cache k = none →
      (∀ i ∈ infos, ∀ k', key_from_info i = .ok k' → k' ≠ k) →
      lookupC (populate cache infos).1 k = none := by
  induction infos with
  | nil => intro cache k h _; exact h
  | cons info rest ih =>
    intro cache k h hkeys
    cases hk : key_from_info info with
    | ok key =>
      simp only [populate, hk]
      apply ih _ k
      · have hne : key ≠ k := hkeys info (List.mem_cons_self info rest) key hk
        simp only [insertC, lookupC, if_neg (Ne.symm hne)]
        exact h
      · exact fun i hi => hkeys i (List.mem_cons_of_mem info hi)
    | error e =>
      simp only [populate, hk]
      exact h

theorem populate_append_stop (pre : List JValue) :
    ∀ (cache : Cache) (bad : JValue) (rest : List JValue) (e : Err),
      (∀ i ∈ pre, ∃ k, key_from_info i = .ok k) →
      key_from_info bad = .error e →
      populate cache (pre ++ bad :: rest) = ((populate cache pre).1, some e) := by
  induction pre with
  | nil =>
    intro cache bad rest e _ hbad
    simp only [List.nil_append, populate, hbad]
  | cons info pre' ih =>
    intro cache bad rest e hgood hbad
    obtain ⟨k, hk⟩ := hgood info (List.mem_cons_self info pre')
    simp only [List.cons_append, populate, hk]
    exact ih _ bad rest e (fun i hi => hgood i (List.mem_cons_of_mem info hi)) hbad

theorem list_isEmpty_false {α : Type} {l : List α} (h : l ≠ []) : l.isEmpty = false := by
  cases l with
  | nil => exact absurd rfl h
  | cons a as => rfl

/-! ## Claim theorems -/

/-- C2 counterexample: the claim says an input with no `/` at all parses
successfully to the whole input as reference; on the code, `"abc"` instead
fails with the "Empty URL" `MalformedRequest` error, because
`rsplit_once('/').unwrap_or_default()` replaces the whole input by two empty
strings. -/
theorem extract_input_noslash_counterexample :
    extract_input "abc" = .error .emptyUrl := rfl

/-- C2 (amended): for every non-empty input string containing no `/`
character at all, `extract_input` fails with the "Empty URL"
`MalformedRequest` error (the whole input is discarded by
`unwrap_or_default`), rather than succeeding with the whole input as the
reference. -/
theorem extract_input_noslash
    (s : String) (hne : s ≠ "") (hs : '/' ∉ s.data) :
    extract_input s = .error .emptyUrl := by
  have h0 : rsplitOnceList s.data '/' = none := rsplitOnceList_eq_none hs
  unfold extract_input
  rw [h0]
  rfl

/-- C2 witness. -/
theorem extract_input_noslash_witness :
    "abc" ≠ "" ∧ extract_input "abc" = .error .emptyUrl :=
  ⟨by decide, extract_input_noslash "abc" (by decide) (by decide)⟩

/-- C3: every path of the shape `<r>/cover.<ext>` with a non-empty extension
(containing no `/`) and a non-empty reference parses to a cover request whose
extension is everything after the first `.` of the suffix; every path whose
suffix after the last `/` is empty parses to a non-cover request with an
empty extension. -/
theorem extract_input_cover_spec :
    (∀ r ext : String, ext.data ≠ [] → '/' ∉ ext.data →
      r.data.dropWhile (fun c => c == '/') ≠ [] →
      extract_input (r ++ "/cover." ++ ext) =
        .ok (String.mk (r.data.dropWhile (fun c => c == '/')), ext, true)) ∧
    (∀ (s : String) (front : List Char),
      rsplitOnceList s.data '/' = some (front, []) →
      front.dropWhile (fun c => c == '/') ≠ [] →
      extract_input s = .ok (String.mk (front.dropWhile (fun c => c == '/')), "", false)) := by
  constructor
  · intro r ext hne hsl href
    have hdata : (r ++ "/cover." ++ ext).data = r.data ++ '/' :: (coverDot ++ ext.data) := by
      rw [String.data_append, String.data_append]
      show r.data ++ ('/' :: coverDot) ++ ext.data = _
      rw [List.append_assoc, List.cons_append]
    have hnots : '/' ∉ coverDot ++ ext.data := by
      intro hmem
      rcases List.mem_append.mp hmem with h | h
      · exact absurd h (by decide)
      · exact hsl h
    have hsplit : rsplitOnceList (r ++ "/cover." ++ ext).data '/' =
        some (r.data, coverDot ++ ext.data) := by
      rw [hdata]
      exact rsplitOnceList_append hnots r.data
    have hstart : startsWithList (coverDot ++ ext.data) coverDot = true :=
      startsWithList_append coverDot ext.data
    have hlast : (coverDot ++ ext.data).isEmpty = false := rfl
    unfold extract_input
    rw [hsplit]
    simp only [Option.getD_some, hstart, hlast, Bool.not_true, Bool.and_false, Bool.false_eq_true,
      if_false, splitOnceList_coverDot, list_isEmpty_false href, list_isEmpty_false hne,
      if_true, string_mk_data]
  · intro s front hsplit href
    unfold extract_input
    rw [hsplit]
    simp only [Option.getD_some, List.isEmpty_nil, Bool.not_false, Bool.and_true,
      list_isEmpty_false href]
    rfl

/-- C3 witness. -/
theorem extract_input_cover_spec_witness :
    extract_input ("/ref" ++ "/cover." ++ "jpg") =
      .ok (String.mk ("/ref".data.dropWhile (fun c => c == '/')), "jpg", true) ∧
    extract_input "/ref/" =
      .ok (String.mk (['/', 'r', 'e', 'f'].dropWhile (fun c => c == '/')), "", false) :=
  ⟨extract_input_cover_spec.1 "/ref" "jpg" (by decide) (by decide) (by decide),
   extract_input_cover_spec.2 "/ref/" ['/', 'r', 'e', 'f'] rfl (by decide)⟩

/-- C4: `extract_input` rejects `"/"`, `""` (empty reference) and
`"/ref/cover."` (cover suffix with empty extension), each with a
`MalformedRequest`-class error, producing no request intent. -/
theorem extract_input_rejects :
    (extract_input "/" = .error .emptyUrl ∧ Err.emptyUrl.isMalformedRequest = true) ∧
    extract_input "" = .error .emptyUrl ∧
    (extract_input "/ref/cover." = .error .coverNoExtension ∧
      Err.coverNoExtension.isMalformedRequest = true) :=
  ⟨⟨rfl, rfl⟩, rfl, rfl, rfl⟩

/-- C5: with a well-typed `thumbnails` array, cover resolution filters the
parseable candidates to those whose url ends with the requested extension;
if none qualifies it fails with `NoMatchingThumbnail`, otherwise it returns
the url of a candidate of maximal preference such that every candidate after
it has strictly smaller preference (so among equal preferences the
later-encountered one wins). -/
theorem cover_url_selects_best
    (info : JValue) (cover_ext : String) (elems : List JValue)
    (hth : info.get "thumbnails" = some (.arr elems))
    (hne : cover_ext ≠ "") :
    (coverCandidates elems cover_ext = [] →
      cover_url_from_info info cover_ext = .error (.noValidThumbnail cover_ext)) ∧
    (coverCandidates elems cover_ext ≠ [] →
      ∃ l1 l2 t, coverCandidates elems cover_ext = l1 ++ t :: l2 ∧
        cover_url_from_info info cover_ext = .ok t.1 ∧
        (∀ u ∈ l1, u.2 ≤ t.2) ∧ (∀ u ∈ l2, u.2 < t.2)) := by
  constructor
  · intro hempty
    simp only [cover_url_from_info, hth, JValue.as_array, hempty]
    rfl
  · intro hnonempty
    obtain ⟨l1, l2, t, hred, hsplit, hmax, hafter⟩ := reduceThumbs_lastMax hnonempty
    refine ⟨l1, l2, t, hsplit, ?_, hmax, hafter⟩
    simp only [cover_url_from_info, hth, JValue.as_array, hred]

/-- C5 witness: the spec's own test vector, requested extension `"jpg"`. -/
theorem cover_url_selects_best_witness :
    coverCandidates [mkThumb "a.jpg" 1, mkThumb "b.jpg" 5, mkThumb "c.png" 9] "jpg" ≠ [] ∧
    (∃ l1 l2 t,
      coverCandidates [mkThumb "a.jpg" 1, mkThumb "b.jpg" 5, mkThumb "c.png" 9] "jpg" =
        l1 ++ t :: l2 ∧
      cover_url_from_info
        (.obj [("thumbnails",
          .arr [mkThumb "a.jpg" 1, mkThumb "b.jpg" 5, mkThumb "c.png" 9])]) "jpg" = .ok t.1 ∧
      (∀ u ∈ l1, u.2 ≤ t.2) ∧ (∀ u ∈ l2, u.2 < t.2)) :=
  ⟨by decide,
   (cover_url_selects_best
      (.obj [("thumbnails", .arr [mkThumb "a.jpg" 1, mkThumb "b.jpg" 5, mkThumb "c.png" 9])])
      "jpg" [mkThumb "a.jpg" 1, mkThumb "b.jpg" 5, mkThumb "c.png" 9]
      rfl (by decide)).2 (by decide)⟩

/-- C6: cover resolution fails with a `FieldMissing("thumbnails")`-class
error exactly when the `thumbnails` field is absent or not an array; and an
entry that does not parse into a thumbnail candidate (url or preference
absent or ill-typed) is skipped without affecting the result. -/
theorem cover_url_thumbnails_contract :
    (∀ (info : JValue) (cover_ext : String),
      (∃ e, cover_url_from_info info cover_ext = .error e ∧
          e.isFieldMissingThumbnails = true) ↔
        (info.get "thumbnails" = none ∨
          ∃ v, info.get "thumbnails" = some v ∧ v.as_array = none)) ∧
    (∀ (info info' : JValue) (cover_ext : String) (pre post : List JValue) (t : JValue),
      thumbOfJson t = none →
      info.get "thumbnails" = some (.arr (pre ++ t :: post)) →
      info'.get "thumbnails" = some (.arr (pre ++ post)) →
      cover_url_from_info info cover_ext = cover_url_from_info info' cover_ext) := by
  constructor
  · intro info cover_ext
    cases hg : info.get "thumbnails" with
    | none =>
      apply iff_of_true
      · refine ⟨.noThumbnails, ?_, rfl⟩
        simp only [cover_url_from_info, hg]
      · exact Or.inl rfl
    | some v =>
      cases ha : v.as_array with
      | none =>
        apply iff_of_true
        · refine ⟨.thumbnailsNotArray, ?_, rfl⟩
          simp only [cover_url_from_info, hg, ha]
        · exact Or.inr ⟨v, rfl, ha⟩
      | some elems =>
        apply iff_of_false
        · rintro ⟨e, he, hcl⟩
          simp only [cover_url_from_info, hg, ha] at he
          cases hr : reduceThumbs (coverCandidates elems cover_ext) with
          | some t =>
            rw [hr] at he
            exact Except.noConfusion he
          | none =>
            rw [hr] at he
            cases he
            exact Bool.noConfusion hcl
        · rintro (h | ⟨v', hv', ha'⟩)
          · exact Option.noConfusion h
          · cases hv'
            rw [ha] at ha'
            exact Option.noConfusion ha'
  · intro info info' cover_ext pre post t hbad hth hth'
    have hcand : coverCandidates (pre ++ t :: post) cover_ext =
        coverCandidates (pre ++ post) cover_ext := by
      unfold coverCandidates
      rw [List.filterMap_append, List.filterMap_append, List.filterMap_cons, hbad]
    simp only [cover_url_from_info, hth, hth', JValue.as_array, hcand]

/-- C6 witness: a thumbnails entry that is a bare string (no url/preference)
is skipped; resolution over `[bad, good]` equals resolution over `[good]`. -/
theorem cover_url_thumbnails_contract_witness :
    cover_url_from_info (.obj [("thumbnails", .arr [.str "bad", mkThumb "a.jpg" 1])]) "jpg" =
      cover_url_from_info (.obj [("thumbnails", .arr [mkThumb "a.jpg" 1])]) "jpg" :=
  cover_url_thumbnails_contract.2
    (.obj [("thumbnails", .arr [.str "bad", mkThumb "a.jpg" 1])])
    (.obj [("thumbnails", .arr [mkThumb "a.jpg" 1])])
    "jpg" [] [mkThumb "a.jpg" 1] (.str "bad") rfl rfl rfl

/-- C7: on a cache miss the extractor runs exactly once; every returned
record is stored under its own `original_url` (the cache-key invariant is
preserved); resolution of the requested reference succeeds; and each
returned record's `original_url` is afterwards a cache hit that runs the
extractor zero further times. -/
theorem resolve_batch_population
    (extr : String → Except Err (List JValue)) (cache : Cache) (input : String)
    (infos : List JValue)
    (hinv : CacheInv cache)
    (hmiss : lookupC cache input = none)
    (hext : extr input = .ok infos)
    (hgood : ∀ i ∈ infos, ∃ k, key_from_info i = .ok k)
    (hself : ∃ i ∈ infos, key_from_info i = .ok input) :
    (resolve extr cache input).2.2 = 1 ∧
    CacheInv (resolve extr cache input).2.1 ∧
    (∃ v, (resolve extr cache input).1 = .ok v) ∧
    (∀ i ∈ infos, ∀ k, key_from_info i = .ok k →
      ∃ v, lookupC (resolve extr cache input).2.1 k = some v ∧
        key_from_info v = .ok k ∧
        resolve extr (resolve extr cache input).2.1 k =
          (.ok v, (resolve extr cache input).2.1, 0)) := by
  obtain ⟨c', e', hp⟩ : ∃ c' e', populate cache infos = (c', e') := ⟨_, _, rfl⟩
  have he' : e' = none := by
    have h2 := populate_good_none infos cache hgood
    rw [hp] at h2
    exact h2
  subst he'
  have hc' : (populate cache infos).1 = c' := by rw [hp]
  have hinv' : CacheInv c' := hc' ▸ populate_inv infos cache hinv
  obtain ⟨i0, hi0, hk0⟩ := hself
  have hsome : (lookupC c' input).isSome := by
    have h3 := populate_lookup_isSome infos cache i0 input hgood hi0 hk0
    rwa [hc'] at h3
  obtain ⟨w, hw⟩ := Option.isSome_iff_exists.mp hsome
  have hres : resolve extr cache input = (.ok w, c', 1) := by
    simp only [resolve, hmiss, hext, hp, hw]
  rw [hres]
  refine ⟨rfl, hinv', ⟨w, rfl⟩, ?_⟩
  intro i hi k hk
  have hsk : (lookupC c' k).isSome := by
    have h4 := populate_lookup_isSome infos cache i k hgood hi hk
    rwa [hc'] at h4
  obtain ⟨v, hv⟩ := Option.isSome_iff_exists.mp hsk
  refine ⟨v, hv, hinv' k v hv, ?_⟩
  simp only [resolve, hv]

/-- Extractor stub for the C7 witness: input `A` yields records whose
`original_url` values are `A`, `B`, `C`. -/
def extrStubC7 : String → Except Err (List JValue) :=
  fun s => if s = "A" then .ok [mkRecord "A", mkRecord "B", mkRecord "C"]
    else .error .childProcessFailed

/-- C7 witness: `resolve(A)` on an empty cache succeeds with one extractor
call, and `resolve(B)` is then a cache hit with zero extractor calls. -/
theorem resolve_batch_population_witness :
    (resolve extrStubC7 [] "A").2.2 = 1 ∧
    (∃ v, (resolve extrStubC7 [] "A").1 = .ok v) ∧
    (∃ v, lookupC (resolve extrStubC7 [] "A").2.1 "B" = some v ∧
      key_from_info v = .ok "B" ∧
      resolve extrStubC7 (resolve extrStubC7 [] "A").2.1 "B" =
        (.ok v, (resolve extrStubC7 [] "A").2.1, 0)) := by
  have h := resolve_batch_population extrStubC7 [] "A"
    [mkRecord "A", mkRecord "B", mkRecord "C"]
    (fun k v hkv => Option.noConfusion hkv)
    rfl rfl
    (by
      intro i hi
      simp only [List.mem_cons, List.not_mem_nil, or_false] at hi
      rcases hi with rfl | rfl | rfl
      · exact ⟨"A", rfl⟩
      · exact ⟨"B", rfl⟩
      · exact ⟨"C", rfl⟩)
    ⟨mkRecord "A", List.mem_cons_self _ _, rfl⟩
  exact ⟨h.1, h.2.2.1,
    h.2.2.2 (mkRecord "B") (List.mem_cons_of_mem _ (List.mem_cons_self _ _)) "B" rfl⟩

/-- Extractor stub for C1: input `A` yields one parseable record whose
`original_url` is `B` (so no record matches the requested reference). -/
def extrStubC1 : String → Except Err (List JValue) :=
  fun s => if s = "A" then .ok [mkRecord "B"] else .error .childProcessFailed

/-- C1 counterexample: with the extractor returning one parseable record
whose `original_url` (`"B"`) differs from the requested reference (`"A"`),
resolution does not fail with a recoverable error at all — the handler
panics through `.expect` — so the claim that it fails with the recoverable
`NoMatchingRecord` error is false. -/
theorem resolve_nomatch_counterexample :
    (resolve extrStubC1 [] "A").1 = .panic expectMsg ∧
    (resolve extrStubC1 [] "A").1.isErr = false :=
  ⟨rfl, rfl⟩

/-- C1 (amended): when the reference is absent from the cache and the
extractor returns only parseable records none of whose `original_url` equals
the requested reference, resolution ends in the `.expect` panic
`"input" to be equal to one "original_url"` — it aborts the request task
instead of returning a recoverable error, so the per-request error path
(logging plus 500 response) is bypassed. -/
theorem resolve_nomatch_panics
    (extr : String → Except Err (List JValue)) (cache : Cache) (input : String)
    (infos : List JValue)
    (hmiss : lookupC cache input = none)
    (hext : extr input = .ok infos)
    (hgood : ∀ i ∈ infos, ∃ k, key_from_info i = .ok k)
    (hnone : ∀ i ∈ infos, ∀ k, key_from_info i = .ok k → k ≠ input) :
    (resolve extr cache input).1 = .panic expectMsg ∧
    (resolve extr cache input).1.isErr = false := by
  obtain ⟨c', e', hp⟩ : ∃ c' e', populate cache infos = (c', e') := ⟨_, _, rfl⟩
  have he' : e' = none := by
    have h2 := populate_good_none infos cache hgood
    rw [hp] at h2
    exact h2
  subst he'
  have habs : lookupC c' input = none := by
    have h3 := populate_lookup_none infos cache input hmiss hnone
    rw [hp] at h3
    exact h3
  have hres : resolve extr cache input = (.panic expectMsg, c', 1) := by
    simp only [resolve, hmiss, hext, hp, habs]
  rw [hres]
  exact ⟨rfl, rfl⟩

/-- C1 witness (for the amended theorem). -/
theorem resolve_nomatch_panics_witness :
    (resolve extrStubC1 [] "A").1 = .panic expectMsg ∧
    (resolve extrStubC1 [] "A").1.isErr = false :=
  resolve_nomatch_panics extrStubC1 [] "A" [mkRecord "B"] rfl rfl
    (by
      intro i hi
      simp only [List.mem_cons, List.not_mem_nil, or_false] at hi
      subst hi
      exact ⟨"B", rfl⟩)
    (by
      intro i hi k hk
      simp only [List.mem_cons, List.not_mem_nil, or_false] at hi
      subst hi
      have hkb : "B" = k := Except.ok.inj hk
      subst hkb
      decide)

/-- C10: population is not atomic — when the extractor output is
`pre ++ bad :: rest` with `bad` lacking a string `original_url`, the request
fails with that record's key error even though a record in `pre` matches the
requested reference, and every record of `pre` is (and stays) inserted in the
cache under its key. -/
theorem resolve_partial_population
    (extr : String → Except Err (List JValue)) (cache : Cache) (input : String)
    (pre : List JValue) (bad : JValue) (rest : List JValue) (e : Err)
    (hmiss : lookupC cache input = none)
    (hext : extr input = .ok (pre ++ bad :: rest))
    (hgood : ∀ i ∈ pre, ∃ k, key_from_info i = .ok k)
    (hbad : key_from_info bad = .error e)
    (hmatch : ∃ i ∈ pre, key_from_info i = .ok input) :
    (resolve extr cache input).1 = .err e ∧
    (resolve extr cache input).2.2 = 1 ∧
    ∀ i ∈ pre, ∀ k, key_from_info i = .ok k →
      (lookupC (resolve extr cache input).2.1 k).isSome := by
  have hp : populate cache (pre ++ bad :: rest) = ((populate cache pre).1, some e) :=
    populate_append_stop pre cache bad rest e hgood hbad
  have hres : resolve extr cache input = (.err e, (populate cache pre).1, 1) := by
    simp only [resolve, hmiss, hext, hp]
  rw [hres]
  refine ⟨rfl, rfl, ?_⟩
  intro i hi k hk
  exact populate_lookup_isSome pre cache i k hgood hi hk

/-- Extractor stub for C10: a record matching the reference followed by a
record with no `original_url` at all. -/
def extrStubC10 : String → Except Err (List JValue) :=
  fun s => if s = "A" then .ok [mkRecord "A", JValue.null] else .error .childProcessFailed

/-- C10 witness. -/
theorem resolve_partial_population_witness :
    (resolve extrStubC10 [] "A").1 = .err .noOriginalUrl ∧
    (resolve extrStubC10 [] "A").2.2 = 1 ∧
    (lookupC (resolve extrStubC10 [] "A").2.1 "A").isSome = true := by
  have h := resolve_partial_population extrStubC10 [] "A" [mkRecord "A"] JValue.null []
    .noOriginalUrl rfl rfl
    (by
      intro i hi
      simp only [List.mem_cons, List.not_mem_nil, or_false] at hi
      subst hi
      exact ⟨"A", rfl⟩)
    rfl
    ⟨mkRecord "A", List.mem_cons_self _ _, rfl⟩
  exact ⟨h.1, h.2.1, h.2.2 (mkRecord "A") (List.mem_cons_self _ _) "A" rfl⟩

/-- C8: the extractor call fails (with an `ExtractionFailed`-class error)
whenever the subprocess exits unsuccessfully or no stdout line parses; on a
successful exit with at least one parseable line, unparseable lines are
skipped and the call returns exactly the parsed records in output order. -/
theorem ask_stream_infos_spec
    (parse : String → Option JValue) (success : Bool) (stdoutLines : List String) :
    (success = false →
      ask_stream_infos parse success stdoutLines = .error .childProcessFailed) ∧
    (stdoutLines.filterMap parse = [] →
      ∃ e, ask_stream_infos parse success stdoutLines = .error e ∧
        e.isExtractionFailed = true) ∧
    (success = true → stdoutLines.filterMap parse ≠ [] →
      ask_stream_infos parse success stdoutLines = .ok (stdoutLines.filterMap parse)) := by
  have hcoll : collectInfos parse stdoutLines [] = stdoutLines.filterMap parse := by
    simpa using collectInfos_eq parse stdoutLines []
  refine ⟨?_, ?_, ?_⟩
  · intro hs
    subst hs
    rfl
  · intro hempty
    cases success with
    | false => exact ⟨.childProcessFailed, rfl, rfl⟩
    | true =>
      refine ⟨.receivedNoInfo, ?_, rfl⟩
      simp [ask_stream_infos, hcoll, hempty]
  · intro hs hne
    subst hs
    simp [ask_stream_infos, hcoll, list_isEmpty_false hne]

/-- Line parser stub for the C8 witness: only the line `"good"` parses. -/
def parseStubC8 : String → Option JValue :=
  fun s => if s = "good" then some (.str "g") else none

/-- C8 witness. -/
theorem ask_stream_infos_spec_witness :
    ask_stream_infos parseStubC8 false ["good"] = .error .childProcessFailed ∧
    ask_stream_infos parseStubC8 true ["good", "bad"] =
      .ok (List.filterMap parseStubC8 ["good", "bad"]) :=
  ⟨(ask_stream_infos_spec parseStubC8 false ["good"]).1 rfl,
   (ask_stream_infos_spec parseStubC8 true ["good", "bad"]).2.2 rfl (fun h => nomatch h)⟩

/-- C9: the forwarded request targets the parsed proxied URL, has every
`host` header removed, and keeps method, remaining headers and body
unchanged; the origin's response is returned as-is. -/
theorem forward_fidelity
    (parseUri : String → Option String) (client : HttpRequest → HttpResponse)
    (request : HttpRequest) (proxied_url u : String)
    (hu : parseUri proxied_url = some u) :
    ∃ fwd, forward parseUri client request proxied_url = .ok (client fwd) ∧
      fwd.method = request.method ∧ fwd.uri = u ∧ fwd.body = request.body ∧
      fwd.headers = request.headers.filter (fun h => h.1 != "host") ∧
      ∀ h, h ∈ fwd.headers ↔ (h ∈ request.headers ∧ h.1 ≠ "host") := by
  refine ⟨{ request with uri := u, headers := removeHeader request.headers "host" },
    ?_, rfl, rfl, rfl, ?_, ?_⟩
  · simp only [forward, hu]
  · exact removeHeader_eq_filter request.headers "host"
  · intro h
    show h ∈ removeHeader request.headers "host" ↔ _
    rw [removeHeader_eq_filter]
    simp [List.mem_filter, bne_iff_ne]

/-- Inbound request stub for the C9 witness. -/
def requestStubC9 : HttpRequest :=
  { method := "GET", uri := "/ref/",
    headers := [("host", "localhost"), ("accept", "audio")], body := [1, 2, 3] }

/-- Origin stub for the C9 witness: echoes the request it received. -/
def clientStubC9 : HttpRequest → HttpResponse :=
  fun r => { status := 200, headers := r.headers, body := r.body }

/-- C9 witness. -/
theorem forward_fidelity_witness :
    ∃ fwd, forward some clientStubC9 requestStubC9 "http://x/y" = .ok (clientStubC9 fwd) ∧
      fwd.method = requestStubC9.method ∧ fwd.uri = "http://x/y" ∧
      fwd.body = requestStubC9.body ∧
      fwd.headers = requestStubC9.headers.filter (fun h => h.1 != "host") ∧
      ∀ h, h ∈ fwd.headers ↔ (h ∈ requestStubC9.headers ∧ h.1 ≠ "host") :=
  forward_fidelity some clientStubC9 requestStubC9 "http://x/y" "http://x/y" rfl
